import Mathlib

/-!
Verification development for the photoscan repository (university event
photo retrieval: face-embedding search, asynchronous photo processing,
access-scope and quota gating).

The repository source under version control here contains the React/TypeScript
frontend (PhotoSearchPage, EventDetailPage, AuthContext, the api client) and
documentation.  The FastAPI backend that implements the Matching Engine, the
Ingestion Coordinator / quota check, and the Status aggregation is not part of
the checked-in sources, so those components are modelled from the
specification (sections 3, 4.2, 4.3, 4.4, 5, 6); every such definition carries
a doc comment beginning with "Modelled from the spec:".  Frontend behaviour
(access-code canonicalization, request construction in handleSearch, the
global axios Authorization header) is embedded directly from the TypeScript
source.
-/

namespace PhotoScan

/-! ## Data model (spec section 3) -/

/-- Modelled from the spec: processing_status of a Photo,
queued -> processing -> (completed | failed) (spec sections 3 and 4.3).
The backend models.py is not among the checked-in sources. -/
inductive PStatus where
  | queued
  | processing
  | completed
  | failed
deriving DecidableEq, Repr

/-- Modelled from the spec: the Photo row fields relevant to matching:
id, event_id, processing_status, created_at (spec section 3).  created_at is
an abstract timestamp ordered as a natural number. -/
structure Photo where
  id : Nat
  event_id : Nat
  processing_status : PStatus
  created_at : Nat
deriving DecidableEq, Repr

/-- Modelled from the spec: a FaceEmbedding row: photo_id, face_index
(unique per photo), embedding vector of fixed dimension (spec section 3).
Vector components are integers standing in for the real-valued coordinates;
the claims settled here only use the linear order on distances, which the
pluggable metric keeps abstract, so the discretization loses nothing. -/
structure FaceEmbedding where
  photo_id : Nat
  face_index : Nat
  vector : List ℤ
deriving DecidableEq, Repr

/-- Modelled from the spec: the embedding store read by the Matching Engine:
the Photo rows plus the FaceEmbedding rows (spec sections 2 and 5). -/
structure Store where
  photos : List Photo
  embeddings : List FaceEmbedding
deriving DecidableEq, Repr

/-- Modelled from the spec: the matching configuration: tolerance, the
result cap (top 200 by default), and the pluggable distance function of the
embedding space in use (Euclidean or cosine; spec section 4.2).  The distance
is kept abstract because the spec treats the metric as a deployment choice. -/
structure Config where
  tol : ℤ
  cap : Nat
  dist : List ℤ → List ℤ → ℤ

/-- Modelled from the spec: one entry of the ordered match list returned by
Search: photo_id, event_id, the distance of the best qualifying face, and the
creation time used for tie-breaking (spec sections 4.2 and 6).  The reported
confidence is a monotone decreasing function of distance, so ranking by
distance is ranking by confidence. -/
structure Match where
  photo_id : Nat
  event_id : Nat
  distance : ℤ
  created_at : Nat
deriving DecidableEq, Repr

/-- Data-model well-formedness (spec section 3): FaceEmbedding rows are
created only when the owning Photo reaches completed, so every embedding whose
owner is present in the store has a completed owner. -/
def WFStore (st : Store) : Prop :=
  ∀ e ∈ st.embeddings, ∀ p ∈ st.photos,
    p.id = e.photo_id → p.processing_status = PStatus.completed

/-! ## Matching Engine (spec section 4.2), modelled from the spec -/

/-- Modelled from the spec: squared Euclidean distance between two embedding
vectors; a concrete instance of the pluggable metric, used by the witnesses.
Comparing squared distance with a squared tolerance is equivalent to
comparing Euclidean distance with the tolerance. -/
def sqDist (u v : List ℤ) : ℤ :=
  (List.zipWith (fun a b => (a - b) * (a - b)) u v).sum

/-- Modelled from the spec: the eligible photos of a search: photos whose
event_id lies in the resolved scope and whose processing_status is completed
(spec sections 4.2 and 5: only completed photos contribute). -/
def candidates (scope : List Nat) (st : Store) : List Photo :=
  st.photos.filter fun p =>
    p.event_id ∈ scope ∧ p.processing_status = PStatus.completed

/-- Modelled from the spec: the embedding rows of one photo. -/
def facesOf (st : Store) (pid : Nat) : List FaceEmbedding :=
  st.embeddings.filter fun e => e.photo_id = pid

/-- Modelled from the spec: visibility gate of section 5: an embedding is
visible to the Matching Engine only when its owning Photo has transitioned to
completed; an in-flight photo never contributes partial faces. -/
def visibleEmbeddings (st : Store) : List FaceEmbedding :=
  st.embeddings.filter fun e =>
    ∃ p ∈ st.photos, p.id = e.photo_id ∧ p.processing_status = PStatus.completed

/-- Modelled from the spec: the distance of the best (lowest-distance) face
of a list of faces to the probe, none when the photo has no faces
(spec section 4.2). -/
def bestDist (cfg : Config) (probe : List ℤ) : List FaceEmbedding → Option ℤ
  | [] => none
  | e :: rest =>
    match bestDist cfg probe rest with
    | none => some (cfg.dist probe e.vector)
    | some d => some (min (cfg.dist probe e.vector) d)

/-- Modelled from the spec: per-photo scoring: a photo yields a match exactly
when its best face qualifies, i.e. has distance at most the tolerance
(spec section 4.2); the match records that best distance. -/
def scoredOf (cfg : Config) (probe : List ℤ) (faces : List FaceEmbedding)
    (p : Photo) : Option Match :=
  (bestDist cfg probe faces).bind fun d =>
    if d ≤ cfg.tol then some ⟨p.id, p.event_id, d, p.created_at⟩ else none

/-- Modelled from the spec: the unordered list of qualifying matches, one per
eligible photo with a qualifying best face. -/
def scored (cfg : Config) (scope : List Nat) (st : Store) (probe : List ℤ) :
    List Match :=
  (candidates scope st).filterMap fun p =>
    scoredOf cfg probe (facesOf st p.id) p

/-- Modelled from the spec: the ranking order of section 4.2: ascending by
distance, ties broken by photo creation time ascending (earliest first). -/
def matchLE (a b : Match) : Prop :=
  a.distance < b.distance ∨ (a.distance = b.distance ∧ a.created_at ≤ b.created_at)

instance : DecidableRel matchLE := fun a b => by
  unfold matchLE; infer_instance

instance : IsTotal Match matchLE where
  total a b := by
    rcases lt_trichotomy a.distance b.distance with h | h | h
    · exact Or.inl (Or.inl h)
    · rcases Nat.le_total a.created_at b.created_at with hc | hc
      · exact Or.inl (Or.inr ⟨h, hc⟩)
      · exact Or.inr (Or.inr ⟨h.symm, hc⟩)
    · exact Or.inr (Or.inl h)

instance : IsTrans Match matchLE where
  trans a b c hab hbc := by
    rcases hab with hab | ⟨hab, hab'⟩
    · rcases hbc with hbc | ⟨hbc, _⟩
      · exact Or.inl (hab.trans hbc)
      · exact Or.inl (hbc ▸ hab)
    · rcases hbc with hbc | ⟨hbc, hbc'⟩
      · exact Or.inl (hab ▸ hbc)
      · exact Or.inr ⟨hab.trans hbc, hab'.trans hbc'⟩

/-- Modelled from the spec: Search of section 6 / ranking of section 4.2:
score the eligible photos, sort ascending by (distance, created_at), and cap
the result at the configured maximum count. -/
def search (cfg : Config) (scope : List Nat) (st : Store) (probe : List ℤ) :
    List Match :=
  (List.insertionSort matchLE (scored cfg scope st probe)).take cfg.cap

/-! ## Helper lemmas about the matching pipeline -/

lemma mem_candidates {scope : List Nat} {st : Store} {p : Photo} :
    p ∈ candidates scope st ↔
      p ∈ st.photos ∧ p.event_id ∈ scope ∧
        p.processing_status = PStatus.completed := by
  simp [candidates, List.mem_filter, and_assoc]

lemma mem_facesOf {st : Store} {pid : Nat} {e : FaceEmbedding} :
    e ∈ facesOf st pid ↔ e ∈ st.embeddings ∧ e.photo_id = pid := by
  simp [facesOf, List.mem_filter]

lemma bestDist_eq_none {cfg : Config} {probe : List ℤ}
    {faces : List FaceEmbedding} :
    bestDist cfg probe faces = none ↔ faces = [] := by
  cases faces with
  | nil => simp [bestDist]
  | cons e rest =>
    simp only [bestDist]
    cases bestDist cfg probe rest <;> simp

lemma bestDist_spec {cfg : Config} {probe : List ℤ}
    {faces : List FaceEmbedding} {d : ℤ}
    (h : bestDist cfg probe faces = some d) :
    (∃ e ∈ faces, d = cfg.dist probe e.vector) ∧
      ∀ e ∈ faces, d ≤ cfg.dist probe e.vector := by
  induction faces generalizing d with
  | nil => simp [bestDist] at h
  | cons e rest ih =>
    simp only [bestDist] at h
    cases hrest : bestDist cfg probe rest with
    | none =>
      rw [hrest] at h
      have hre : rest = [] := bestDist_eq_none.mp hrest
      subst hre
      simp only [Option.some.injEq] at h
      subst h
      refine ⟨⟨e, by simp⟩, ?_⟩
      intro e' he'
      simp only [List.mem_cons, List.not_mem_nil, or_false] at he'
      subst he'
      exact le_refl _
    | some d' =>
      rw [hrest] at h
      simp only [Option.some.injEq] at h
      subst h
      obtain ⟨⟨w, hw, hwd⟩, hall⟩ := ih hrest
      constructor
      · rcases le_total (cfg.dist probe e.vector) d' with hc | hc
        · exact ⟨e, by simp, by simp [min_eq_left hc]⟩
        · exact ⟨w, by simp [hw], by rw [min_eq_right hc]; exact hwd⟩
      · intro e' he'
        rcases List.mem_cons.mp he' with he' | he'
        · subst he'; exact min_le_left _ _
        · exact le_trans (min_le_right _ _) (hall e' he')

lemma bestDist_isSome_of_mem {cfg : Config} {probe : List ℤ}
    {faces : List FaceEmbedding} {e : FaceEmbedding} (he : e ∈ faces) :
    ∃ d, bestDist cfg probe faces = some d := by
  cases faces with
  | nil => cases he
  | cons f rest =>
    cases hb : bestDist cfg probe rest with
    | none => exact ⟨cfg.dist probe f.vector, by simp [bestDist, hb]⟩
    | some d => exact ⟨min (cfg.dist probe f.vector) d, by simp [bestDist, hb]⟩

lemma scoredOf_eq_some {cfg : Config} {probe : List ℤ}
    {faces : List FaceEmbedding} {p : Photo} {m : Match}
    (h : scoredOf cfg probe faces p = some m) :
    m.photo_id = p.id ∧ m.event_id = p.event_id ∧ m.created_at = p.created_at ∧
      bestDist cfg probe faces = some m.distance ∧ m.distance ≤ cfg.tol := by
  unfold scoredOf at h
  cases hb : bestDist cfg probe faces with
  | none => rw [hb] at h; simp at h
  | some d =>
    rw [hb] at h
    rw [Option.some_bind] at h
    by_cases hd : d ≤ cfg.tol
    · rw [if_pos hd] at h
      simp only [Option.some.injEq] at h
      have hm1 : m.photo_id = p.id := by rw [← h]
      have hm2 : m.event_id = p.event_id := by rw [← h]
      have hm3 : m.created_at = p.created_at := by rw [← h]
      have hm4 : m.distance = d := by rw [← h]
      refine ⟨hm1, hm2, hm3, ?_, ?_⟩
      · rw [hm4]
      · rw [hm4]; exact hd
    · rw [if_neg hd] at h; cases h

lemma scoredOf_of_qualifying {cfg : Config} {probe : List ℤ}
    {faces : List FaceEmbedding} {p : Photo} {d : ℤ}
    (hb : bestDist cfg probe faces = some d) (hd : d ≤ cfg.tol) :
    scoredOf cfg probe faces p = some ⟨p.id, p.event_id, d, p.created_at⟩ := by
  unfold scoredOf
  rw [hb]
  simp [hd]

lemma mem_scored {cfg : Config} {scope : List Nat} {st : Store}
    {probe : List ℤ} {m : Match} :
    m ∈ scored cfg scope st probe ↔
      ∃ p ∈ candidates scope st,
        scoredOf cfg probe (facesOf st p.id) p = some m := by
  simp [scored, List.mem_filterMap]

lemma mem_scored_of_mem_search {cfg : Config} {scope : List Nat} {st : Store}
    {probe : List ℤ} {m : Match} (h : m ∈ search cfg scope st probe) :
    m ∈ scored cfg scope st probe := by
  unfold search at h
  have h' := List.take_subset cfg.cap _ h
  exact (List.mem_insertionSort matchLE).mp h'

lemma search_eq_sort_of_cap {cfg : Config} {scope : List Nat} {st : Store}
    {probe : List ℤ}
    (hcap : (scored cfg scope st probe).length ≤ cfg.cap) :
    search cfg scope st probe =
      List.insertionSort matchLE (scored cfg scope st probe) := by
  unfold search
  apply List.take_of_length_le
  rw [(List.perm_insertionSort matchLE _).length_eq]
  exact hcap

lemma scored_ids_sublist (cfg : Config) (probe : List ℤ) (st : Store)
    (l : List Photo) :
    ((l.filterMap fun p => scoredOf cfg probe (facesOf st p.id) p).map
      Match.photo_id).Sublist (l.map Photo.id) := by
  induction l with
  | nil => simp
  | cons p l ih =>
    cases hs : scoredOf cfg probe (facesOf st p.id) p with
    | none =>
      simp only [List.filterMap_cons, hs, List.map_cons]
      exact ih.cons _
    | some m =>
      have hid := (scoredOf_eq_some hs).1
      simp only [List.filterMap_cons, hs, List.map_cons]
      rw [hid]
      exact ih.cons₂ _

lemma nodup_scored_ids {cfg : Config} {scope : List Nat} {st : Store}
    {probe : List ℤ} (hN : (st.photos.map Photo.id).Nodup) :
    ((scored cfg scope st probe).map Match.photo_id).Nodup := by
  have h1 : ((candidates scope st).map Photo.id).Sublist
      (st.photos.map Photo.id) :=
    (List.filter_sublist st.photos).map Photo.id
  have h2 := scored_ids_sublist cfg probe st (candidates scope st)
  exact (h2.trans h1).nodup hN

lemma facesOf_visible {st : Store} {p : Photo} (hp : p ∈ st.photos)
    (hc : p.processing_status = PStatus.completed) :
    facesOf ⟨st.photos, visibleEmbeddings st⟩ p.id = facesOf st p.id := by
  unfold facesOf visibleEmbeddings
  simp only
  rw [List.filter_filter]
  apply List.filter_congr
  intro e he
  by_cases hid : e.photo_id = p.id
  · simp [hid]
    exact ⟨p, hp, rfl, hc⟩
  · simp [hid]

lemma scored_visible_eq {cfg : Config} {scope : List Nat} {st : Store}
    {probe : List ℤ} :
    scored cfg scope ⟨st.photos, visibleEmbeddings st⟩ probe =
      scored cfg scope st probe := by
  unfold scored
  have hcand : candidates scope ⟨st.photos, visibleEmbeddings st⟩ =
      candidates scope st := rfl
  rw [hcand]
  apply List.filterMap_congr
  intro p hp
  obtain ⟨hmem, _, hc⟩ := mem_candidates.mp hp
  rw [facesOf_visible hmem hc]

/-! ## Demo data used by the witnesses -/

/-- A concrete matching configuration: tolerance 1/2, result cap 200,
squared Euclidean distance. -/
def demoCfg : Config := ⟨1, 200, sqDist⟩

/-- A concrete store: photo 1 (event 10, completed) with one face at the
probe, photo 2 (event 10, failed, no faces), photo 3 (event 11, completed)
with one distant face. -/
def demoStore : Store :=
  ⟨[⟨1, 10, PStatus.completed, 5⟩, ⟨2, 10, PStatus.failed, 6⟩,
    ⟨3, 11, PStatus.completed, 7⟩],
   [⟨1, 0, [1, 0]⟩, ⟨3, 0, [0, 1]⟩]⟩

/-- A concrete probe embedding. -/
def demoProbe : List ℤ := [1, 0]

/-! ## Claim theorems for the Matching Engine -/

/-- C1: for every probe embedding and every photo in scope, Search returns
the photo iff the photo has at least one face embedding whose distance to the
probe is at most the configured tolerance; a photo all of whose faces are at
distance above the tolerance is never returned.  Hypotheses: the store
satisfies the data-model invariant that embeddings exist only for completed
photos (spec section 3), and the number of qualifying photos does not exceed
the result cap. -/
theorem search_mem_iff_qualifying_face
    (cfg : Config) (scope : List Nat) (st : Store) (probe : List ℤ) (p : Photo)
    (hWF : WFStore st)
    (hcap : (scored cfg scope st probe).length ≤ cfg.cap)
    (hp : p ∈ st.photos) (hscope : p.event_id ∈ scope) :
    (∃ m ∈ search cfg scope st probe, m.photo_id = p.id) ↔
      ∃ e ∈ st.embeddings, e.photo_id = p.id ∧
        cfg.dist probe e.vector ≤ cfg.tol := by
  rw [search_eq_sort_of_cap hcap]
  constructor
  · rintro ⟨m, hm, hmp⟩
    have hm' : m ∈ scored cfg scope st probe :=
      (List.mem_insertionSort matchLE).mp hm
    obtain ⟨q, hqc, hq⟩ := mem_scored.mp hm'
    obtain ⟨hqid, _, _, hbd, htol⟩ := scoredOf_eq_some hq
    obtain ⟨⟨e, hef, hed⟩, _⟩ := bestDist_spec hbd
    obtain ⟨heE, heP⟩ := mem_facesOf.mp hef
    refine ⟨e, heE, ?_, ?_⟩
    · exact heP.trans (hqid.symm.trans hmp)
    · rw [← hed]; exact htol
  · rintro ⟨e, heE, heP, hdist⟩
    have hcomp : p.processing_status = PStatus.completed :=
      hWF e heE p hp heP.symm
    have hpc : p ∈ candidates scope st :=
      mem_candidates.mpr ⟨hp, hscope, hcomp⟩
    have hefaces : e ∈ facesOf st p.id := mem_facesOf.mpr ⟨heE, heP⟩
    obtain ⟨d, hbd⟩ := bestDist_isSome_of_mem hefaces
    obtain ⟨_, hmin⟩ := bestDist_spec hbd
    have hdtol : d ≤ cfg.tol := le_trans (hmin e hefaces) hdist
    have hsc := scoredOf_of_qualifying (p := p) hbd hdtol
    exact ⟨⟨p.id, p.event_id, d, p.created_at⟩,
      (List.mem_insertionSort matchLE).mpr (mem_scored.mpr ⟨p, hpc, hsc⟩), rfl⟩

/-- C1 witness: in the demo store, photo 1 is in scope of event 10 and the
equivalence holds there. -/
theorem search_mem_iff_qualifying_face_witness :
    (∃ m ∈ search demoCfg [10] demoStore demoProbe, m.photo_id = 1) ↔
      ∃ e ∈ demoStore.embeddings, e.photo_id = 1 ∧
        demoCfg.dist demoProbe e.vector ≤ demoCfg.tol :=
  search_mem_iff_qualifying_face demoCfg [10] demoStore demoProbe
    ⟨1, 10, PStatus.completed, 5⟩ (by unfold WFStore; decide) (by decide)
    (by decide) (by decide)

/-- C2: no photo whose processing_status is queued, processing or failed ever
appears in a search result: every returned match stems from a completed photo
in the store, and the search output is unchanged when the embedding store is
restricted to the atomically visible embeddings (those whose owning photo has
transitioned to completed), so an in-flight photo never contributes partial
faces. -/
theorem search_state_gated_and_atomic
    (cfg : Config) (scope : List Nat) (st : Store) (probe : List ℤ) :
    (∀ m ∈ search cfg scope st probe, ∃ p ∈ st.photos,
        p.id = m.photo_id ∧ p.processing_status = PStatus.completed) ∧
      search cfg scope ⟨st.photos, visibleEmbeddings st⟩ probe =
        search cfg scope st probe := by
  constructor
  · intro m hm
    obtain ⟨q, hqc, hq⟩ := mem_scored.mp (mem_scored_of_mem_search hm)
    obtain ⟨hmem, _, hcomp⟩ := mem_candidates.mp hqc
    exact ⟨q, hmem, ((scoredOf_eq_some hq).1).symm, hcomp⟩
  · unfold search
    rw [scored_visible_eq]

/-- C2 witness: the match for photo 1 in the demo search stems from a
completed photo, and restricting the demo store to visible embeddings leaves
the search result unchanged. -/
theorem search_state_gated_and_atomic_witness :
    (∃ p ∈ demoStore.photos, p.id = (⟨1, 10, 0, 5⟩ : Match).photo_id ∧
        p.processing_status = PStatus.completed) ∧
      search demoCfg [10] ⟨demoStore.photos, visibleEmbeddings demoStore⟩
          demoProbe =
        search demoCfg [10] demoStore demoProbe := by
  have h := search_state_gated_and_atomic demoCfg [10] demoStore demoProbe
  exact ⟨h.1 ⟨1, 10, 0, 5⟩ (by decide), h.2⟩

/-- C3: a search whose resolved scope is the single event A only returns
matches whose event_id is A. -/
theorem search_scope_isolation
    (cfg : Config) (A : Nat) (st : Store) (probe : List ℤ) (m : Match)
    (hm : m ∈ search cfg [A] st probe) :
    m.event_id = A := by
  obtain ⟨q, hqc, hq⟩ := mem_scored.mp (mem_scored_of_mem_search hm)
  obtain ⟨_, hsc, _⟩ := mem_candidates.mp hqc
  rw [(scoredOf_eq_some hq).2.1]
  simpa using hsc

/-- C3 witness: the demo search scoped to event 10 returns the match for
photo 1, whose event_id is 10. -/
theorem search_scope_isolation_witness :
    (⟨1, 10, 0, 5⟩ : Match).event_id = 10 :=
  search_scope_isolation demoCfg 10 demoStore demoProbe ⟨1, 10, 0, 5⟩
    (by decide)

/-- C5: each photo_id occurs at most once in a search result, and every
returned match records the distance of the best (lowest-distance) face of its
photo: the match distance is attained by one of the photo embeddings and is a
lower bound of all of them. -/
theorem search_unique_photo_best_face
    (cfg : Config) (scope : List Nat) (st : Store) (probe : List ℤ)
    (hN : (st.photos.map Photo.id).Nodup) :
    ((search cfg scope st probe).map Match.photo_id).Nodup ∧
      ∀ m ∈ search cfg scope st probe,
        (∃ e ∈ st.embeddings, e.photo_id = m.photo_id ∧
            m.distance = cfg.dist probe e.vector) ∧
          ∀ e ∈ st.embeddings, e.photo_id = m.photo_id →
            m.distance ≤ cfg.dist probe e.vector := by
  constructor
  · have h1 := @nodup_scored_ids cfg scope st probe hN
    have hperm :
        ((List.insertionSort matchLE (scored cfg scope st probe)).map
          Match.photo_id).Perm
          ((scored cfg scope st probe).map Match.photo_id) :=
      (List.perm_insertionSort matchLE _).map _
    have h2 := (List.Perm.nodup_iff hperm).mpr h1
    unfold search
    rw [List.map_take]
    exact (List.take_sublist _ _).nodup h2
  · intro m hm
    obtain ⟨q, hqc, hq⟩ := mem_scored.mp (mem_scored_of_mem_search hm)
    obtain ⟨hqid, _, _, hbd, _⟩ := scoredOf_eq_some hq
    obtain ⟨⟨e, hef, hed⟩, hmin⟩ := bestDist_spec hbd
    obtain ⟨heE, heP⟩ := mem_facesOf.mp hef
    refine ⟨⟨e, heE, heP.trans hqid.symm, hed⟩, ?_⟩
    intro e' he' hid'
    exact hmin e' (mem_facesOf.mpr ⟨he', hid'.trans hqid⟩)

/-- C5 witness: the demo store has distinct photo ids, so the demo search
result names each photo at most once and each match carries its photo best
face distance. -/
theorem search_unique_photo_best_face_witness :
    ((search demoCfg [10] demoStore demoProbe).map Match.photo_id).Nodup ∧
      ∀ m ∈ search demoCfg [10] demoStore demoProbe,
        (∃ e ∈ demoStore.embeddings, e.photo_id = m.photo_id ∧
            m.distance = demoCfg.dist demoProbe e.vector) ∧
          ∀ e ∈ demoStore.embeddings, e.photo_id = m.photo_id →
            m.distance ≤ demoCfg.dist demoProbe e.vector :=
  search_unique_photo_best_face demoCfg [10] demoStore demoProbe (by decide)

/-- C6: the search result is sorted ascending by distance with ties broken by
photo creation time ascending, and — the Matching Engine being a pure
function of its inputs — two searches with identical configuration, scope,
store contents and probe return the same ordered list. -/
theorem search_sorted_deterministic
    (cfg : Config) (scope : List Nat) (st : Store) (probe : List ℤ) :
    List.Sorted matchLE (search cfg scope st probe) ∧
      search cfg scope st probe = search cfg scope st probe := by
  refine ⟨?_, rfl⟩
  unfold search
  exact List.Pairwise.sublist (List.take_sublist _ _)
    (List.sorted_insertionSort matchLE _)

/-! ## Quota gate (spec section 4.4), modelled from the spec -/

/-- Modelled from the spec: the observable steps of handling one uploaded
file in the Ingestion Coordinator, used to state that the quota check happens
before any image decode or processing (spec section 4.4). -/
inductive IngestStep where
  | quotaCheck
  | decode
  | process
deriving DecidableEq, Repr

/-- Modelled from the spec: outcome of one upload: whether the file was
accepted, and the ordered trace of steps performed. -/
structure IngestOutcome where
  accepted : Bool
  trace : List IngestStep
deriving DecidableEq, Repr

/-- Modelled from the spec: the Resolver-enforced quota check of section 4.4:
reject if storage_bytes_used + incoming_bytes > limit; accept exactly at
equality.  The backend Ingestion Coordinator is not among the checked-in
sources. -/
def quotaAccepts (used limit s : Nat) : Bool := used + s ≤ limit

/-- Modelled from the spec: handling one upload of size s: the quota check
runs first; only an accepted file is decoded and processed (spec section 4.4:
the check happens before any image decode/processing). -/
def ingestUpload (used limit s : Nat) : IngestOutcome :=
  if quotaAccepts used limit s then
    ⟨true, [IngestStep.quotaCheck, IngestStep.decode, IngestStep.process]⟩
  else
    ⟨false, [IngestStep.quotaCheck]⟩

/-- C4: an upload of size s against an event with used bytes and a limit is
accepted iff used + s ≤ limit, in particular exactly at equality; any upload
with used + s > limit is rejected, and a rejected upload is never decoded:
the quota check is the first step of every trace and the decode step occurs
only after acceptance. -/
theorem quota_boundary (used limit s : Nat) :
    ((ingestUpload used limit s).accepted = true ↔ used + s ≤ limit) ∧
      (used + s = limit → (ingestUpload used limit s).accepted = true) ∧
      (used + s > limit → (ingestUpload used limit s).accepted = false ∧
        IngestStep.decode ∉ (ingestUpload used limit s).trace) ∧
      (ingestUpload used limit s).trace.head? = some IngestStep.quotaCheck := by
  unfold ingestUpload quotaAccepts
  by_cases h : used + s ≤ limit
  · simp [h]
  · have h' : ¬ (used + s = limit) := fun he => h (le_of_eq he)
    simp [h, h']

/-- C4 witness: with used = 3, limit = 5, a 2-byte upload (equality) is
accepted and a 3-byte upload is rejected without being decoded. -/
theorem quota_boundary_witness :
    (ingestUpload 3 5 2).accepted = true ∧
      ((ingestUpload 3 5 3).accepted = false ∧
        IngestStep.decode ∉ (ingestUpload 3 5 3).trace) :=
  ⟨(quota_boundary 3 5 2).2.1 (by decide),
    (quota_boundary 3 5 3).2.2.1 (by decide)⟩

/-! ## Status aggregation (spec section 6), modelled from the spec -/

/-- Modelled from the spec: the Status(event_id) report:
total, processed, percent (spec section 6). -/
structure StatusReport where
  total : Nat
  processed : Nat
  percent : Nat
deriving DecidableEq, Repr

/-- Modelled from the spec: the Status Tracker aggregation over the photos of
one event: processed = completed_count + failed_count (spec section 6); the
percentage is processed over total, 100 for an event with no photos.  The
backend processing-status endpoint is not among the checked-in sources. -/
def statusOf (photos : List Photo) : StatusReport :=
  let total := photos.length
  let processed := (photos.filter fun p =>
    p.processing_status = PStatus.completed ∨
      p.processing_status = PStatus.failed).length
  ⟨total, processed, if total = 0 then 100 else processed * 100 / total⟩

lemma count_terminal (l : List Photo) :
    (l.filter fun p => p.processing_status = PStatus.completed ∨
        p.processing_status = PStatus.failed).length =
      (l.filter fun p => p.processing_status = PStatus.completed).length +
        (l.filter fun p => p.processing_status = PStatus.failed).length := by
  induction l with
  | nil => rfl
  | cons p l ih =>
    rw [List.filter_cons, List.filter_cons, List.filter_cons]
    cases hs : p.processing_status
    · rw [if_neg (by simp [hs]), if_neg (by simp [hs]), if_neg (by simp [hs])]
      exact ih
    · rw [if_neg (by simp [hs]), if_neg (by simp [hs]), if_neg (by simp [hs])]
      exact ih
    · rw [if_pos (by simp [hs]), if_pos (by simp [hs]), if_neg (by simp [hs])]
      rw [List.length_cons, List.length_cons, ih]
      omega
    · rw [if_pos (by simp [hs]), if_neg (by simp [hs]), if_pos (by simp [hs])]
      rw [List.length_cons, List.length_cons, ih]
      omega

/-- C8: Status reports processed = completed_count + failed_count — a photo
counts as processed exactly when its processing_status is completed or
failed — and when every photo of the event is completed or failed the
reported percent reaches 100 even if some photos failed. -/
theorem status_counts_failed_as_processed (photos : List Photo) :
    (statusOf photos).processed =
        (photos.filter fun p =>
          p.processing_status = PStatus.completed).length +
          (photos.filter fun p =>
            p.processing_status = PStatus.failed).length ∧
      ((∀ p ∈ photos, p.processing_status = PStatus.completed ∨
          p.processing_status = PStatus.failed) →
        (statusOf photos).percent = 100) := by
  constructor
  · simp only [statusOf]
    exact count_terminal photos
  · intro hall
    have hfeq : (photos.filter fun p =>
        p.processing_status = PStatus.completed ∨
          p.processing_status = PStatus.failed) = photos :=
      List.filter_eq_self.mpr fun a ha => by simpa using hall a ha
    simp only [statusOf, hfeq]
    rcases Nat.eq_zero_or_pos photos.length with h0 | hpos
    · simp [h0]
    · rw [if_neg (Nat.pos_iff_ne_zero.mp hpos)]
      exact Nat.mul_div_cancel_left 100 hpos

/-- C8 witness: the demo photo list has two completed photos and one failed
photo; Status reports processed = 2 + 1 and percent = 100. -/
theorem status_counts_failed_as_processed_witness :
    (statusOf demoStore.photos).processed =
        (demoStore.photos.filter fun p =>
          p.processing_status = PStatus.completed).length +
          (demoStore.photos.filter fun p =>
            p.processing_status = PStatus.failed).length ∧
      (statusOf demoStore.photos).percent = 100 := by
  have h := status_counts_failed_as_processed demoStore.photos
  exact ⟨h.1, h.2 (by decide)⟩

/-! ## Global authorization header (frontend AuthContext.tsx) -/

/-- AuthContext.tsx lines 38-44, setAuthHeader: writes the process-wide
axios default Authorization header (axios.defaults.headers.common): a token
sets it to the Bearer string, none deletes it.  The previous value of the
shared header is overwritten unconditionally. -/
def setAuthHeader (t : Option String) (_g : Option String) : Option String :=
  match t with
  | some tok => some ("Bearer " ++ tok)
  | none => none

/-- AuthContext.tsx lines 69-75, login: after a successful login the token is
written into the shared axios default header. -/
def loginSetsHeader (accessToken : String) (g : Option String) : Option String :=
  setAuthHeader (some accessToken) g

/-- AuthContext.tsx lines 98-103, logout: deletes the shared axios default
header. -/
def logoutClearsHeader (g : Option String) : Option String :=
  setAuthHeader none g

/-- Every axios request reads the shared default header; no per-request
identity value is threaded through the api client (api.ts passes no
Authorization of its own). -/
def requestAuthHeader (g : Option String) : Option String := g

/-- C9 counterexample: the claim that switching the caller identity does not
mutate process-wide shared state is false at a concrete input: setAuthHeader
with token A changes the shared header from empty to the Bearer string. -/
theorem auth_header_counterexample :
    ¬ setAuthHeader (some "A") none = none := by
  simp [setAuthHeader]

/-- C9 (amended): the caller identity is carried in process-wide shared
state, not in a request-scoped value: setAuthHeader overwrites the global
axios Authorization header regardless of its previous value, and after
logging in as identity a and then identity b, every subsequent request —
including one made on behalf of a — reads the Bearer token of b from the
shared header; logout clears the shared header for all callers. -/
theorem auth_header_is_ambient (a b : String) (g : Option String) :
    setAuthHeader (some a) g = some ("Bearer " ++ a) ∧
      setAuthHeader (some a) g = setAuthHeader (some a) (loginSetsHeader b g) ∧
      requestAuthHeader (loginSetsHeader b (loginSetsHeader a g)) =
        some ("Bearer " ++ b) ∧
      logoutClearsHeader (loginSetsHeader a g) = none :=
  ⟨rfl, rfl, rfl, rfl⟩

/-! ## Search request construction (frontend PhotoSearchPage.tsx, api.ts) -/

/-- The PhotoSearchPage component state read by handleSearch
(PhotoSearchPage.tsx): isOrganizer (line 40), photo (a probe file is
selected), faceRegistered (user.face_registered), eventFromCode (the event
resolved from the submitted access code), eventCode (the code text state),
selectedEvent (the organizer event filter; none is the empty selection). -/
structure SearchPageState where
  isOrganizer : Bool
  photo : Bool
  faceRegistered : Bool
  eventFromCode : Option Nat
  eventCode : String
  selectedEvent : Option Nat
deriving DecidableEq, Repr

/-- The multipart form built by api.photos.search (api.ts lines 44-52):
whether a file part is present, and the optional event_id and access_code
fields. -/
structure SearchRequest where
  hasFile : Bool
  event_id : Option Nat
  access_code : Option String
deriving DecidableEq, Repr

/-- JS truthiness on an optional number: undefined and 0 are falsy. -/
def jsTruthyNum (o : Option Nat) : Option Nat :=
  match o with
  | some n => if n = 0 then none else some n
  | none => none

/-- JS truthiness on an optional string: undefined and the empty string are
falsy. -/
def jsTruthyStr (o : Option String) : Option String :=
  match o with
  | some s => if s = "" then none else some s
  | none => none

/-- api.ts lines 44-52: each fd.append runs only when its value is truthy in
JS: the file when present, event_id when a nonzero number, access_code when a
nonempty string. -/
def apiPhotosSearch (file : Bool) (eventId : Option Nat)
    (accessCode : Option String) : SearchRequest :=
  ⟨file, jsTruthyNum eventId, jsTruthyStr accessCode⟩

/-- PhotoSearchPage.tsx lines 120-143, handleSearch: guard on a missing
probe (no file and no registered face), guard on a missing event code for
non-organizers, then derive accessCode and eventId by role and call
api.photos.search; on a guard failure an error message is set and no request
is issued.  selectedEvent || undefined in JS is undefined for the empty
selection and for the number 0. -/
def handleSearch (st : SearchPageState) : Except String SearchRequest :=
  if !st.photo && !st.faceRegistered then
    Except.error
      "Please upload a photo, scan your face, or register your face first."
  else if !st.isOrganizer && st.eventFromCode.isNone && st.eventCode = "" then
    Except.error "Enter the event code first."
  else
    let accessCode : Option String :=
      if !st.isOrganizer && st.eventFromCode.isSome then some st.eventCode
      else none
    let eventId : Option Nat :=
      if st.isOrganizer then jsTruthyNum st.selectedEvent else none
    Except.ok (apiPhotosSearch st.photo eventId accessCode)

/-- PhotoSearchPage.tsx line 157: the Find My Photos button is enabled only
when a probe is available and the scope is resolved for the role. -/
def canSearch (st : SearchPageState) : Bool :=
  (st.photo || st.faceRegistered) &&
    (st.isOrganizer || st.eventFromCode.isSome)

/-- C10: the scoping parameters of every issued search request are mutually
exclusive by role: when the search button is reachable (canSearch) and the
component invariant holds that a resolved event implies a nonempty code text,
handleSearch issues a request in which a non-organizer carries the access
code and no event_id while an organizer never carries an access code; and
with neither a probe photo nor a registered face available no request is
issued at all — handleSearch returns the error message instead. -/
theorem search_request_role_exclusive (st : SearchPageState) :
    (st.photo = false → st.faceRegistered = false →
      handleSearch st = Except.error
        "Please upload a photo, scan your face, or register your face first.") ∧
      (canSearch st = true → (st.eventFromCode.isSome → st.eventCode ≠ "") →
        ∃ r, handleSearch st = Except.ok r ∧
          (st.isOrganizer = false →
            r.access_code = some st.eventCode ∧ r.event_id = none) ∧
          (st.isOrganizer = true → r.access_code = none)) := by
  obtain ⟨org, ph, fr, efc, ec, se⟩ := st
  constructor
  · intro hp hf
    subst hp; subst hf
    rfl
  · intro hcan hinv
    simp only [canSearch, Bool.and_eq_true, Bool.or_eq_true] at hcan
    obtain ⟨hprobe, hrole⟩ := hcan
    have hguard1 : (!ph && !fr) = false := by
      rcases hprobe with h | h <;> simp [h]
    cases org with
    | false =>
      cases efc with
      | none => simp at hrole
      | some eid =>
        have hec : ec ≠ "" := hinv (by simp)
        refine ⟨⟨ph, none, some ec⟩, ?_, ?_, ?_⟩
        · simp [handleSearch, hguard1, apiPhotosSearch, jsTruthyNum,
            jsTruthyStr, hec]
        · intro _
          exact ⟨rfl, rfl⟩
        · intro h
          simp at h
    | true =>
      have hout : handleSearch ⟨true, ph, fr, efc, ec, se⟩ =
          Except.ok (apiPhotosSearch ph (jsTruthyNum se) none) := by
        simp [handleSearch, hguard1]
      exact ⟨_, hout, fun h => by simp at h, fun _ => rfl⟩

/-- C10 witness: a student with no probe gets the error and no request; a
student with a photo and a resolved code issues a request carrying the access
code and no event_id. -/
theorem search_request_role_exclusive_witness :
    handleSearch ⟨false, false, false, none, "", none⟩ = Except.error
        "Please upload a photo, scan your face, or register your face first." ∧
      ∃ r, handleSearch ⟨false, true, false, some 7, "AB12CD34", none⟩ =
          Except.ok r ∧
        r.access_code = some "AB12CD34" ∧ r.event_id = none := by
  have h1 := search_request_role_exclusive ⟨false, false, false, none, "", none⟩
  have h2 :=
    search_request_role_exclusive ⟨false, true, false, some 7, "AB12CD34", none⟩
  refine ⟨h1.1 rfl rfl, ?_⟩
  obtain ⟨r, hok, hna, _⟩ := h2.2 (by decide) (fun _ => by decide)
  exact ⟨r, hok, (hna rfl).1, (hna rfl).2⟩

/-! ## Access-code canonicalization (frontend PhotoSearchPage.tsx)

JS strings are embedded as lists of UTF-16 code units (natural numbers);
the event codes at stake are ASCII. -/

/-- The ASCII fragment of String.prototype.toUpperCase on one code unit:
lowercase letters a-z (97 to 122) map to A-Z (65 to 90); everything else is
unchanged. -/
def jsToUpper (c : Nat) : Nat :=
  if 97 ≤ c ∧ c ≤ 122 then c - 32 else c

/-- The character class A-Z0-9 of the replace in the onChange handler
(PhotoSearchPage.tsx line 168). -/
def isUpperAlnum (c : Nat) : Bool :=
  (65 ≤ c && c ≤ 90) || (48 ≤ c && c ≤ 57)

/-- The ASCII whitespace code units stripped by String.prototype.trim:
tab, LF, VT, FF, CR and space. -/
def isJsSpace (c : Nat) : Bool :=
  c == 32 || c == 9 || c == 10 || c == 11 || c == 12 || c == 13

/-- String.prototype.trim: strip leading and trailing whitespace. -/
def jsTrim (s : List Nat) : List Nat :=
  ((s.dropWhile isJsSpace).reverse.dropWhile isJsSpace).reverse

/-- PhotoSearchPage.tsx line 168, the event-code input onChange:
uppercase the typed value, delete every character outside A-Z0-9, and keep
the first 8 characters. -/
def canonInput (s : List Nat) : List Nat :=
  ((s.map jsToUpper).filter isUpperAlnum).take 8

/-- PhotoSearchPage.tsx lines 45-53 and 64-76: the code actually looked up —
via the URL search param in the useEffect, and again in handleSubmitCode —
is code.trim().toUpperCase(), with no character-class or length
restriction. -/
def canonUrl (s : List Nat) : List Nat :=
  (jsTrim s).map jsToUpper

/-- The canonical form asserted by the claim: at most 8 characters, all in
the uppercase alphanumeric class A-Z0-9. -/
def IsCanonicalCode (l : List Nat) : Prop :=
  l.length ≤ 8 ∧ ∀ c ∈ l, isUpperAlnum c = true

lemma jsToUpper_of_upperAlnum {c : Nat} (h : isUpperAlnum c = true) :
    jsToUpper c = c := by
  unfold isUpperAlnum at h
  unfold jsToUpper
  rw [if_neg]
  simp only [Bool.or_eq_true, Bool.and_eq_true, decide_eq_true_eq] at h
  omega

lemma not_space_of_upperAlnum {c : Nat} (h : isUpperAlnum c = true) :
    isJsSpace c = false := by
  unfold isUpperAlnum at h
  unfold isJsSpace
  simp only [Bool.or_eq_true, Bool.and_eq_true, decide_eq_true_eq] at h
  simp only [Bool.or_eq_false_iff, beq_eq_false_iff_ne, ne_eq]
  omega

lemma isJsSpace_jsToUpper (c : Nat) : isJsSpace (jsToUpper c) = isJsSpace c := by
  unfold jsToUpper
  by_cases h : 97 ≤ c ∧ c ≤ 122
  · rw [if_pos h]
    have h1 : isJsSpace (c - 32) = false := by
      unfold isJsSpace
      simp only [Bool.or_eq_false_iff, beq_eq_false_iff_ne, ne_eq]
      omega
    have h2 : isJsSpace c = false := by
      unfold isJsSpace
      simp only [Bool.or_eq_false_iff, beq_eq_false_iff_ne, ne_eq]
      omega
    rw [h1, h2]
  · rw [if_neg h]

lemma dropWhile_of_head_false {p : Nat → Bool} {l : List Nat}
    (h : ∀ c ∈ l, p c = false) : l.dropWhile p = l := by
  cases l with
  | nil => rfl
  | cons a l =>
    rw [List.dropWhile_cons, if_neg]
    simp [h a (by simp)]

lemma jsTrim_of_no_space {l : List Nat}
    (h : ∀ c ∈ l, isJsSpace c = false) : jsTrim l = l := by
  unfold jsTrim
  rw [dropWhile_of_head_false h,
    dropWhile_of_head_false (fun c hc => h c (List.mem_reverse.mp hc)),
    List.reverse_reverse]

lemma map_jsToUpper_dropWhile (l : List Nat) :
    (l.dropWhile isJsSpace).map jsToUpper =
      (l.map jsToUpper).dropWhile isJsSpace := by
  induction l with
  | nil => rfl
  | cons a l ih =>
    rw [List.map_cons, List.dropWhile_cons, List.dropWhile_cons,
      isJsSpace_jsToUpper]
    by_cases h : isJsSpace a = true
    · rw [if_pos h, if_pos h]
      exact ih
    · rw [if_neg h, if_neg h, List.map_cons]

lemma canonUrl_comm (s : List Nat) :
    canonUrl s = jsTrim (s.map jsToUpper) := by
  unfold canonUrl jsTrim
  rw [← map_jsToUpper_dropWhile, ← List.map_reverse,
    ← map_jsToUpper_dropWhile, ← List.map_reverse]

lemma canonInput_canonical (s : List Nat) : IsCanonicalCode (canonInput s) := by
  unfold canonInput IsCanonicalCode
  constructor
  · exact List.length_take_le 8 _
  · intro c hc
    exact (List.mem_filter.mp (List.take_subset 8 _ hc)).2

/-- C7 counterexample: the claim that every code submitted for lookup is the
uppercase form restricted to A-Z0-9 and at most 8 characters fails on the
URL-parameter path (PhotoSearchPage.tsx lines 45-53), which only trims and
uppercases: the query-string code ab-12cd34xx is looked up as AB-12CD34XX,
which contains a hyphen (code 45) and has 11 characters. -/
theorem access_code_canonicalization_counterexample :
    canonUrl [97, 98, 45, 49, 50, 99, 100, 51, 52, 120, 120] =
        [65, 66, 45, 49, 50, 67, 68, 51, 52, 88, 88] ∧
      ¬ IsCanonicalCode [65, 66, 45, 49, 50, 67, 68, 51, 52, 88, 88] := by
  constructor
  · rfl
  · unfold IsCanonicalCode
    decide

/-- C7 (amended): the manual-entry path canonicalizes every typed value to an
uppercase alphanumeric code of at most 8 characters, and the subsequent
trim-and-uppercase applied by the lookup leaves that canonical code
unchanged; both lookup paths uppercase the code, so two inputs equal up to
letter case canonicalize identically on either path (lookup is
case-insensitive); the URL-parameter path, however, only trims and
uppercases, without restricting the character class or the length. -/
theorem access_code_canonicalization (s t : List Nat) :
    IsCanonicalCode (canonInput s) ∧
      canonUrl (canonInput s) = canonInput s ∧
      (s.map jsToUpper = t.map jsToUpper →
        canonInput s = canonInput t ∧ canonUrl s = canonUrl t) := by
  refine ⟨canonInput_canonical s, ?_, ?_⟩
  · have hmem : ∀ c ∈ canonInput s, isUpperAlnum c = true :=
      (canonInput_canonical s).2
    unfold canonUrl
    rw [jsTrim_of_no_space (fun c hc => not_space_of_upperAlnum (hmem c hc))]
    calc (canonInput s).map jsToUpper
        = (canonInput s).map id :=
          List.map_congr_left fun c hc => jsToUpper_of_upperAlnum (hmem c hc)
      _ = canonInput s := List.map_id _
  · intro hmap
    constructor
    · unfold canonInput
      rw [hmap]
    · rw [canonUrl_comm, canonUrl_comm, hmap]

/-- C7 witness: the lowercase input ab and the uppercase input AB
canonicalize to the same canonical code on both lookup paths. -/
theorem access_code_canonicalization_witness :
    IsCanonicalCode (canonInput [97, 98]) ∧
      canonUrl (canonInput [97, 98]) = canonInput [97, 98] ∧
      (canonInput [97, 98] = canonInput [65, 66] ∧
        canonUrl [97, 98] = canonUrl [65, 66]) := by
  have h := access_code_canonicalization [97, 98] [65, 66]
  exact ⟨h.1, h.2.1, h.2.2 (by decide)⟩

end PhotoScan
